import Mathlib

/-!
Shallow embedding of the EAM exchange-announcement monitor (Rust sources under
src/eam/src): the canonical Announcement model and its classifier
(models/announcement.rs), the Coinbase category-override block
(exchanges/coinbase.rs), the retry/backoff engine, the response extractor and
the proxy rotation (utils/mod.rs), and the per-source supervision loop
(exchanges/monitor.rs).  Rust strings are modelled as List Char (response
bodies, where byte indexing matters, as List Nat of UTF-8 bytes); usize is
modelled as Nat reduced mod 2^64 where the source wraps.
-/

/-- ASCII lowercasing of one character; non-ASCII characters (e.g. the CJK
keywords) are unchanged, matching Rust to_lowercase on every character this
development evaluates. -/
def toLowerChar (c : Char) : Char :=
  if 'A' ≤ c ∧ c ≤ 'Z' then Char.ofNat (c.toNat + 32) else c

/-- ASCII uppercasing of one character, matching Rust to_uppercase on the
ASCII word characters the symbol scanner captures. -/
def toUpperChar (c : Char) : Char :=
  if 'a' ≤ c ∧ c ≤ 'z' then Char.ofNat (c.toNat - 32) else c

/-- Does the first list occur at the very start of the second one? -/
def leadsWith : List Char → List Char → Bool
  | [], _ => true
  | _ :: _, [] => false
  | a :: n, b :: h => a = b && leadsWith n h

/-- Substring test: Rust str::contains(needle). -/
def containsSub (needle : List Char) : List Char → Bool
  | [] => needle.isEmpty
  | c :: t => leadsWith needle (c :: t) || containsSub needle t

/-- The regex word class \w restricted to ASCII (the only characters the
captured symbols of this development contain). -/
def wordChar (c : Char) : Bool :=
  ('a' ≤ c && c ≤ 'z') || ('A' ≤ c && c ≤ 'Z') || ('0' ≤ c && c ≤ '9') || c = '_'

/-- models/announcement.rs: the canonical Announcement record.  The
DateTime<Utc> field is modelled as an integer timestamp. -/
structure Announcement where
  id : List Char
  title : List Char
  content : List Char
  url : List Char
  exchange : List Char
  published_at : Int
  is_new_listing : Bool
  token_symbols : List (List Char)
deriving DecidableEq, Repr

/-- Announcement::new — defaults is_new_listing = false, token_symbols = []. -/
def Announcement.new (id title content url exchange : List Char)
    (published_at : Int) : Announcement :=
  { id := id, title := title, content := content, url := url,
    exchange := exchange, published_at := published_at,
    is_new_listing := false, token_symbols := [] }

/-- The fixed keyword set of analyze_for_new_listing. -/
def listing_keywords : List (List Char) :=
  [ (String.toList "new listing"), (String.toList "listing"),
    (String.toList "new token"), (String.toList "new coin"),
    (String.toList "new cryptocurrency"), (String.toList "will list"),
    (String.toList "now available"), (String.toList "deposits open"),
    (String.toList "trading pairs"), (String.toList "添加"),
    (String.toList "上线") ]

/-- The keyword heuristic: some listing keyword occurs in the lowercased
title or in the lowercased content. -/
def listingDetected (title content : List Char) : Bool :=
  listing_keywords.any fun kw =>
    containsSub kw (title.map toLowerChar) || containsSub kw (content.map toLowerChar)

/-- One scan step of the regex capture iteration for
[\(\[]([\w]\x7b2,10\x7d)[\)\]]: at an opening bracket the greedy run of word
characters must have length 2..10 and be followed immediately by a closing
bracket; matches are non-overlapping and the scan resumes after a match, or
one character later after a failure.  The fuel argument (instantiated with the
string length, an upper bound on the number of steps) keeps the recursion
structural. -/
def scanGo : Nat → List Char → List (List Char)
  | 0, _ => []
  | _ + 1, [] => []
  | fuel + 1, c :: rest =>
    if c = '(' ∨ c = '[' then
      match rest.dropWhile wordChar with
      | [] => scanGo fuel rest
      | d :: after2 =>
        if (d = ')' ∨ d = ']') ∧ 2 ≤ (rest.takeWhile wordChar).length ∧
            (rest.takeWhile wordChar).length ≤ 10 then
          rest.takeWhile wordChar :: scanGo fuel after2
        else scanGo fuel rest
    else scanGo fuel rest

/-- All capture groups of the symbol regex over a string, in match order. -/
def scanCaptures (s : List Char) : List (List Char) :=
  scanGo s.length s

/-- The uppercased captures of one string, in match order. -/
def extractedSyms (s : List Char) : List (List Char) :=
  (scanCaptures s).map (List.map toUpperChar)

/-- The content loop of analyze_for_new_listing: push each symbol unless it is
already present. -/
def dedupAppend (base : List (List Char)) (l : List (List Char)) : List (List Char) :=
  l.foldl (fun acc s => if s ∈ acc then acc else acc ++ [s]) base

/-- Symbol extraction of analyze_for_new_listing: title captures are pushed
unconditionally, content captures only when not already present. -/
def extractSymbols (title content : List Char) : List (List Char) :=
  dedupAppend (extractedSyms title) (extractedSyms content)

/-- Specification-side restatement of the amended dedup rule, to be compared
with the code's fold: walk the scanned content symbols in order and append
each one unless it is already present — in the given prefix or among the
content symbols appended earlier — so the appended symbols keep first-seen
order and later duplicates are skipped. -/
def firstSeenSpec (seen : List (List Char)) : List (List Char) → List (List Char)
  | [] => []
  | x :: t =>
    if x ∈ seen then firstSeenSpec seen t
    else x :: firstSeenSpec (seen ++ [x]) t

/-- Is this character ASCII?  On ASCII-only inputs the character model of
this development is exact: the regex crate's Unicode-aware word class \w
agrees with [A-Za-z0-9_] on ASCII characters, and Rust str::to_uppercase /
str::to_lowercase agree with the single-character ASCII case maps. -/
def isAsciiChar (c : Char) : Bool := c.toNat < 128

/-- models/announcement.rs lines 53-94: set is_new_listing from the keyword
heuristic and, only when it is true, recompute token_symbols. -/
def analyze_for_new_listing (a : Announcement) : Announcement :=
  { a with
    is_new_listing := listingDetected a.title a.content,
    token_symbols :=
      if listingDetected a.title a.content then extractSymbols a.title a.content
      else a.token_symbols }

/-- exchanges/coinbase.rs lines 92-98: does some category contain one of the
listing category keywords (lowercased)? -/
def coinbaseHasListingCategory (categories : List (List Char)) : Bool :=
  categories.any fun cat =>
    containsSub (String.toList "listing") (cat.map toLowerChar) ||
    containsSub (String.toList "new asset") (cat.map toLowerChar) ||
    containsSub (String.toList "new crypto") (cat.map toLowerChar)

/-- exchanges/coinbase.rs lines 88-105: analyze the freshly built announcement
and, when the category metadata flags a listing the heuristic missed, set
is_new_listing and call analyze_for_new_listing a second time. -/
def coinbaseProcessAnnouncement (categories : Option (List (List Char)))
    (a : Announcement) : Announcement :=
  let a1 := analyze_for_new_listing a
  match categories with
  | none => a1
  | some cats =>
    if coinbaseHasListingCategory cats ∧ ¬a1.is_new_listing then
      analyze_for_new_listing { a1 with is_new_listing := true }
    else a1

/-- utils/mod.rs retry_request: the outcome of one factory invocation — a
response (status and body) or a transport-level failure. -/
inductive AttemptOutcome where
  | response (status : Nat) (body : List Char)
  | failure (e : List Char)
deriving DecidableEq, Repr

/-- The error value retry_request can surface: the message built from a
429/403 response, the propagated transport error, or the fallback message
used when no attempt ever ran. -/
inductive RetryError where
  | statusError (status : Nat) (body : List Char)
  | transportError (e : List Char)
  | exhausted (attempts : Nat)
deriving DecidableEq, Repr

/-- The observable outcome of one retry_request run: the returned value, the
ordered list of backoff sleeps performed, and how many times the request
factory was invoked. -/
structure RunSummary where
  result : Except RetryError (Nat × List Char)
  sleeps : List Nat
  calls : Nat
deriving Repr

/-- reqwest StatusCode::is_success. -/
def isSuccessStatus (s : Nat) : Bool := 200 ≤ s && s < 300

/-- The two statuses retry_request treats as retryable (429, 403). -/
def isRetryableStatus (s : Nat) : Bool := s = 429 || s = 403

/-- utils/mod.rs lines 249-297, the loop of retry_request.  attempt is the
0-based loop counter, remaining the number of iterations left
(max_retries - attempt), delay the current backoff, lastErr the recorded
error of the most recent failed attempt. -/
def retryAux (f : Nat → AttemptOutcome) :
    Nat → Nat → Nat → Option RetryError → RunSummary
  | attempt, 0, _, lastErr =>
    { result := Except.error (lastErr.getD (RetryError.exhausted attempt)),
      sleeps := [], calls := 0 }
  | attempt, r + 1, delay, _lastErr =>
    match f attempt with
    | AttemptOutcome.response status body =>
      if isSuccessStatus status then
        { result := Except.ok (status, body), sleeps := [], calls := 1 }
      else if isRetryableStatus status then
        let s := retryAux f (attempt + 1) r (delay * 2)
          (some (RetryError.statusError status body))
        { result := s.result, sleeps := delay :: s.sleeps, calls := s.calls + 1 }
      else
        { result := Except.ok (status, body), sleeps := [], calls := 1 }
    | AttemptOutcome.failure e =>
      if r = 0 then
        { result := Except.error (RetryError.transportError e), sleeps := [], calls := 1 }
      else
        let s := retryAux f (attempt + 1) r (delay * 2)
          (some (RetryError.transportError e))
        { result := s.result, sleeps := delay :: s.sleeps, calls := s.calls + 1 }

/-- utils/mod.rs retry_request(request_fn, max_retries, initial_delay_ms). -/
def retry_request (f : Nat → AttemptOutcome) (max_retries initial_delay_ms : Nat) :
    RunSummary :=
  retryAux f 0 max_retries initial_delay_ms none

/-- Does this attempt outcome make retry_request return it to the caller
(a response whose status is handled by either return branch)? -/
def accepted : AttemptOutcome → Bool
  | AttemptOutcome.response s _ => isSuccessStatus s || !(isRetryableStatus s)
  | AttemptOutcome.failure _ => false

/-- The error retry_request records for a non-accepted attempt. -/
def errOf : AttemptOutcome → RetryError
  | AttemptOutcome.response s b => RetryError.statusError s b
  | AttemptOutcome.failure e => RetryError.transportError e

/-- What extract_response_data produces: a decoded value, an error, or a
panic of the diagnostic byte slice (a non-char-boundary index). -/
inductive ExtractOutcome (T : Type) where
  | ok (t : T)
  | err (msg : List Char)
  | panic
deriving DecidableEq, Repr

/-- Rust str::is_char_boundary over a UTF-8 byte list: true at 0 and at the
length, and at any index holding a non-continuation byte. -/
def is_char_boundary (bytes : List Nat) (i : Nat) : Bool :=
  if i = 0 then true
  else
    match bytes.get? i with
    | none => i = bytes.length
    | some b => b < 128 || 192 ≤ b

/-- Does the content type declare HTML (content_type.contains("text/html"))?
Content types are character strings. -/
def isHtmlContentType (contentType : List Char) : Bool :=
  containsSub (String.toList "text/html") contentType

/-- utils/mod.rs lines 300-344, extract_response_data: structured decode
unless the content type is HTML; on decode failure invoke the registered
fallback on the raw body, else return the decode error — logging a diagnostic
excerpt obtained by byte-slicing the body at index 200, which panics when
that index is not a char boundary.  Returns the outcome and the number of
fallback invocations. -/
def extract_response_data {T : Type} (contentType : List Char) (body : List Nat)
    (decode : List Nat → Except (List Char) T)
    (html_extractor : Option (List Nat → Except (List Char) T)) :
    ExtractOutcome T × Nat :=
  let json_result : Except (List Char) T :=
    if isHtmlContentType contentType then
      Except.error (String.toList "Content-Type is HTML, not JSON")
    else decode body
  match json_result with
  | Except.ok data => (ExtractOutcome.ok data, 0)
  | Except.error json_err =>
    match html_extractor with
    | some extractor =>
      (match extractor body with
       | Except.ok t => ExtractOutcome.ok t
       | Except.error m => ExtractOutcome.err m, 1)
    | none =>
      if 200 < body.length then
        if is_char_boundary body 200 then (ExtractOutcome.err json_err, 0)
        else (ExtractOutcome.panic, 0)
      else (ExtractOutcome.err json_err, 0)

/-- usize arithmetic wraps at 2^64 (AtomicUsize::fetch_add). -/
def USIZE_MOD : Nat := 2 ^ 64

/-- utils/mod.rs ProxyConfig; current_index models the AtomicUsize cursor. -/
structure ProxyConfig where
  host : List Char
  port_range : Nat × Nat
  system_proxy : Option (List Char)
  current_index : Nat
deriving DecidableEq, Repr

/-- Rust str::split(sep) for a one-character separator. -/
def splitOnDashAux (acc : List Char) : List Char → List (List Char)
  | [] => [acc.reverse]
  | c :: rest =>
    if c = '-' then acc.reverse :: splitOnDashAux [] rest
    else splitOnDashAux (c :: acc) rest

/-- PORT_RANGE.split('-'). -/
def splitOnDash (s : List Char) : List (List Char) :=
  splitOnDashAux [] s

/-- Is this character an ASCII digit? -/
def isDigitChar (c : Char) : Bool := '0' ≤ c && c ≤ '9'

/-- str::parse::<u16>().ok(): all-digit non-empty strings whose value fits in
a u16 (the optional leading sign Rust accepts never occurs in this
development). -/
def parse_u16 (s : List Char) : Option Nat :=
  if s.isEmpty then none
  else if s.all isDigitChar then
    let n := s.foldl (fun acc c => acc * 10 + (c.toNat - 48)) 0
    if n ≤ 65535 then some n else none
  else none

/-- utils/mod.rs lines 109-135, ProxyConfig::from_env over the three
environment variables PROXY, PORT_RANGE and SYSTEM_PROXY: the port range must
split on a dash into exactly two u16 fields with start < end. -/
def from_env (proxyVar portRangeVar systemProxyVar : Option (List Char)) :
    Option ProxyConfig :=
  match proxyVar, portRangeVar with
  | some host, some pr =>
    match splitOnDash pr with
    | [p0, p1] =>
      match parse_u16 p0, parse_u16 p1 with
      | some start_port, some end_port =>
        if start_port ≥ end_port then none
        else some { host := host, port_range := (start_port, end_port),
                    system_proxy := systemProxyVar, current_index := 0 }
      | _, _ => none
    | _ => none
  | _, _ => none

/-- utils/mod.rs lines 137-143, the port computation of next_proxy_url:
fetch_add the cursor (wrapping usize) and offset the range start by the old
cursor value modulo the port count. -/
def next_proxy_port (c : ProxyConfig) : Nat × ProxyConfig :=
  let current := c.current_index
  let port_count := (c.port_range.2 - c.port_range.1) + 1
  (c.port_range.1 + current % port_count,
   { c with current_index := (current + 1) % USIZE_MOD })

/-- ProxyConfig::next_proxy_url — format!("http://\x7b\x7d:\x7b\x7d", host, port). -/
def next_proxy_url (c : ProxyConfig) : List Char × ProxyConfig :=
  let p := next_proxy_port c
  (String.toList "http://" ++ c.host ++ [':'] ++ (Nat.repr p.1).toList, p.2)

/-- The ports produced by n successive next_proxy_url calls. -/
def portsOfCalls (c : ProxyConfig) : Nat → List Nat
  | 0 => []
  | n + 1 =>
    let p := next_proxy_port c
    p.1 :: portsOfCalls p.2 n

/-- exchanges/monitor.rs: the result of one fetch_announcements call. -/
inductive FetchOutcome where
  | ok (anns : List Announcement)
  | failure (e : List Char)
deriving DecidableEq, Repr

/-- The structured log records the run loop emits each tick. -/
inductive LogEvent where
  | fetching (exchange : List Char)
  | retrieved (exchange : List Char) (total newListings : Nat)
  | listingFound (exchange title tokens url : List Char)
  | fetchFailed (exchange e : List Char)
deriving DecidableEq, Repr

/-- Control flow a Rust loop body can request. -/
inductive LoopControl where
  | continueLoop
  | exitLoop
deriving DecidableEq, Repr

/-- Did the body exit the loop? -/
def LoopControl.toExit : LoopControl → Bool
  | LoopControl.continueLoop => false
  | LoopControl.exitLoop => true

/-- exchanges/monitor.rs lines 22-64, the body of one tick of
ExchangeMonitor::run: log the fetch, then either the aggregate counts plus
one record per flagged listing, or the exchange name and error; neither match
arm breaks out of the loop. -/
def tickBody (name : List Char) (r : FetchOutcome) : List LogEvent × LoopControl :=
  match r with
  | FetchOutcome.ok anns =>
    (LogEvent.fetching name ::
      LogEvent.retrieved name anns.length
        (anns.filter (fun a => a.is_new_listing)).length ::
      (anns.filter (fun a => a.is_new_listing)).map (fun a =>
        LogEvent.listingFound name a.title
          (List.intercalate (String.toList ", ") a.token_symbols) a.url),
     LoopControl.continueLoop)
  | FetchOutcome.failure e =>
    ([LogEvent.fetching name, LogEvent.fetchFailed name e], LoopControl.continueLoop)

/-- The supervision loop run for n ticks: accumulated logs and whether some
tick body exited the loop. -/
def runTicks (name : List Char) (fetches : Nat → FetchOutcome) : Nat → List LogEvent × Bool
  | 0 => ([], false)
  | n + 1 =>
    let prev := runTicks name fetches n
    if prev.2 then prev
    else
      let t := tickBody name (fetches n)
      (prev.1 ++ t.1, (t.2).toExit)

/-- A Coinbase blog post whose title and content carry no listing keyword but
whose remote category metadata flags a listing. -/
def c1post : Announcement :=
  Announcement.new (String.toList "post1") (String.toList "Foo (ABC)") []
    (String.toList "u") (String.toList "Coinbase") 0

/-- A detected listing whose title holds the same bracketed symbol twice. -/
def c2dupAnn : Announcement :=
  Announcement.new [] (String.toList "listing (AB) (AB)") [] [] [] 0

/-- A detected listing with one title symbol and two content symbols, one of
them already seen in the title. -/
def c2exAnn : Announcement :=
  Announcement.new [] (String.toList "Will list Foobar [BTC]")
    (String.toList "Also supports (ETH) and (BTC)") [] [] 0

/-- A structured decoder that rejects every body. -/
def alwaysFailDecode : List Nat → Except (List Char) Nat :=
  fun _ => Except.error (String.toList "JSON parse error")

/-- A 202-byte body: 199 ASCII bytes then a three-byte UTF-8 character, so
byte index 200 falls inside that character. -/
def c3body : List Nat := List.replicate 199 97 ++ [226, 130, 172]

/-- A 203-byte body: 199 ASCII bytes then a four-byte UTF-8 character, so
byte index 200 falls inside that character. -/
def c9body : List Nat := List.replicate 199 98 ++ [240, 159, 146, 150]

/-- A request factory whose every attempt fails at the transport level. -/
def cfailFactory : Nat → AttemptOutcome :=
  fun _ => AttemptOutcome.failure (String.toList "connection error")

/-- A request factory answering 200 on every attempt. -/
def cokFactory : Nat → AttemptOutcome :=
  fun _ => AttemptOutcome.response 200 (String.toList "ok")

/-- A request factory answering 404 on every attempt. -/
def c404Factory : Nat → AttemptOutcome :=
  fun _ => AttemptOutcome.response 404 (String.toList "nf")

/-- A decoder accepting exactly the body [49] (the JSON text "1"). -/
def decodeOne : List Nat → Except (List Char) Nat :=
  fun b => if b = [49] then Except.ok 1 else Except.error (String.toList "bad")

/-- A fallback extractor returning a fixed value on every body. -/
def fixedFallback : List Nat → Except (List Char) Nat :=
  fun _ => Except.ok 7

/-- A fetch stream that fails on every tick. -/
def boomFetches : Nat → FetchOutcome :=
  fun _ => FetchOutcome.failure (String.toList "boom")

/-- An announcement with no listing keyword and a nonempty prior
token_symbols value. -/
def c10ann : Announcement :=
  { Announcement.new (String.toList "i") (String.toList "Scheduled maintenance")
      (String.toList "downtime expected") (String.toList "u") (String.toList "x") 5 with
    token_symbols := [String.toList "OLD"] }

/-- C1 (code bug): on a post with a listing category but no keyword match, the
override block of CoinbaseMonitor::fetch_announcements leaves
is_new_listing = false and token_symbols empty — setting the flag and then
re-running analyze_for_new_listing lets the keyword heuristic overwrite the
forced flag, so the claimed post-override state is_new_listing = true never
materialises. -/
theorem coinbase_category_override_is_nullified :
    coinbaseHasListingCategory [String.toList "Listings"] = true
    ∧ (analyze_for_new_listing c1post).is_new_listing = false
    ∧ (coinbaseProcessAnnouncement (some [String.toList "Listings"]) c1post).is_new_listing = false
    ∧ (coinbaseProcessAnnouncement (some [String.toList "Listings"]) c1post).token_symbols = [] := by
  decide

/-- C2 (counterexample): on the detected listing whose title holds (AB)
twice, analyze_for_new_listing produces token_symbols = [AB, AB] — the title
loop pushes without a duplicate check, refuting the claim that every symbol
appears at most once. -/
theorem title_symbols_can_duplicate :
    (analyze_for_new_listing c2dupAnn).is_new_listing = true
    ∧ (analyze_for_new_listing c2dupAnn).token_symbols
        = [String.toList "AB", String.toList "AB"]
    ∧ ¬ (analyze_for_new_listing c2dupAnn).token_symbols.Nodup := by
  decide

set_option maxRecDepth 20000 in
/-- C3 (counterexample): a non-HTML response with an undecodable 202-byte
body whose byte index 200 splits a character, with no fallback registered,
makes extract_response_data panic in the diagnostic slice — none of
{structured result, fallback result, error} is produced. -/
theorem extract_trichotomy_fails_on_nonboundary_body :
    extract_response_data (String.toList "application/json") c3body
      alwaysFailDecode none = (ExtractOutcome.panic, 0) := by
  decide

set_option maxRecDepth 20000 in
/-- C9 (code bug): extract_response_data is not total on the error path —
on a 203-byte body where byte index 200 falls inside a four-byte character,
the diagnostic excerpt slice panics instead of returning the decode error. -/
theorem extract_excerpt_slice_panics_c9 :
    (extract_response_data (String.toList "application/json") c9body
        alwaysFailDecode none).1 = ExtractOutcome.panic
    ∧ is_char_boundary c9body 200 = false
    ∧ 200 < c9body.length := by
  decide

/-- C4 (counterexample): with an always-failing factory, max_attempts = 2 and
initial_delay = 100, the single sleep — the one performed before attempt 2 —
is 100ms, not the 100 × 2^(2-1) = 200ms the claimed formula demands. -/
theorem retry_backoff_exponent_counterexample :
    (retry_request cfailFactory 2 100).sleeps = [100]
    ∧ ¬ (100 : Nat) = 100 * 2 ^ (2 - 1) := by
  exact ⟨rfl, by decide⟩

/-- C7 (counterexample): the rotation cursor is a wrapping usize, so with the
3-port range [1,3] and starting cursor 2^64 - 1 the first three
next_proxy_url calls yield ports 1, 1, 2 — port 1 repeats before port 3 is
ever produced, refuting the claim for arbitrary starting cursor values. -/
theorem proxy_rotation_wraparound_counterexample :
    from_env (some (String.toList "h")) (some (String.toList "1-3")) none
      = some (ProxyConfig.mk (String.toList "h") (1, 3) none 0)
    ∧ portsOfCalls (ProxyConfig.mk (String.toList "h") (1, 3) none (USIZE_MOD - 1)) 3
      = [1, 1, 2]
    ∧ ¬ (portsOfCalls (ProxyConfig.mk (String.toList "h") (1, 3) none (USIZE_MOD - 1)) 3).Nodup := by
  refine ⟨by decide, by decide, by decide⟩

/-- C10: analyze_for_new_listing mutates only is_new_listing and
token_symbols — the six other fields are returned unchanged — and when no
listing keyword matches, token_symbols keeps its prior value instead of
being cleared. -/
theorem analyze_frame_c10 (a : Announcement) :
    (analyze_for_new_listing a).id = a.id
    ∧ (analyze_for_new_listing a).title = a.title
    ∧ (analyze_for_new_listing a).content = a.content
    ∧ (analyze_for_new_listing a).url = a.url
    ∧ (analyze_for_new_listing a).exchange = a.exchange
    ∧ (analyze_for_new_listing a).published_at = a.published_at
    ∧ ((analyze_for_new_listing a).is_new_listing = false →
        (analyze_for_new_listing a).token_symbols = a.token_symbols) := by
  refine ⟨rfl, rfl, rfl, rfl, rfl, rfl, ?_⟩
  intro h
  simp only [analyze_for_new_listing] at h ⊢
  simp [h]

/-- Witness for C10 at a keyword-free announcement carrying a nonempty prior
token_symbols value. -/
theorem analyze_frame_c10_witness :
    (analyze_for_new_listing c10ann).exchange = c10ann.exchange
    ∧ (analyze_for_new_listing c10ann).token_symbols = c10ann.token_symbols := by
  exact ⟨(analyze_frame_c10 c10ann).2.2.2.2.1,
    (analyze_frame_c10 c10ann).2.2.2.2.2.2 (by decide)⟩

/-- C8: however the fetch stream behaves, n ticks of the run loop never set
the exit flag — no tick body, in particular no error branch, terminates the
loop — and every tick whose fetch failed contributes a log record carrying
the exchange name and the error, after which the loop keeps processing
later ticks. -/
theorem monitor_error_isolation_c8 (name : List Char)
    (fetches : Nat → FetchOutcome) (n : Nat) :
    (runTicks name fetches n).2 = false
    ∧ ∀ k e, k < n → fetches k = FetchOutcome.failure e →
        LogEvent.fetchFailed name e ∈ (runTicks name fetches n).1 := by
  induction n with
  | zero => exact ⟨rfl, fun k e hk _ => absurd hk (Nat.not_lt_zero k)⟩
  | succ n ih =>
    obtain ⟨ih1, ih2⟩ := ih
    have hrun : runTicks name fetches (n + 1)
        = ((runTicks name fetches n).1 ++ (tickBody name (fetches n)).1,
           ((tickBody name (fetches n)).2).toExit) := by
      simp [runTicks, ih1]
    have hctl : ((tickBody name (fetches n)).2).toExit = false := by
      cases h : fetches n <;> simp [tickBody, LoopControl.toExit]
    constructor
    · rw [hrun]; exact hctl
    · intro k e hk hf
      rw [hrun]
      rcases Nat.lt_succ_iff_lt_or_eq.mp hk with hk2 | hk2
      · exact List.mem_append_left _ (ih2 k e hk2 hf)
      · subst hk2; rw [hf]; exact List.mem_append_right _ (by simp [tickBody])

/-- Witness for C8: two ticks of an always-failing source keep the loop
running and log the failure of tick 0. -/
theorem monitor_error_isolation_c8_witness :
    (runTicks (String.toList "Kraken") boomFetches 2).2 = false
    ∧ LogEvent.fetchFailed (String.toList "Kraken") (String.toList "boom")
        ∈ (runTicks (String.toList "Kraken") boomFetches 2).1 := by
  exact ⟨(monitor_error_isolation_c8 (String.toList "Kraken") boomFetches 2).1,
    (monitor_error_isolation_c8 (String.toList "Kraken") boomFetches 2).2 0
      (String.toList "boom") (by decide) rfl⟩

/-- Unfolding one step of the content dedup loop. -/
theorem dedupAppend_cons (base : List (List Char)) (x : List Char)
    (t : List (List Char)) :
    dedupAppend base (x :: t)
      = dedupAppend (if x ∈ base then base else base ++ [x]) t := rfl

/-- The content loop appends, after the untouched base, a duplicate-free
subsequence of the scanned symbols: exactly the first occurrences of symbols
not already present, and every scanned symbol ends up present. -/
theorem dedupAppend_spec (l base : List (List Char)) :
    ∃ C, dedupAppend base l = base ++ C
      ∧ C.Nodup
      ∧ C.Sublist l
      ∧ (∀ s ∈ C, s ∈ l ∧ s ∉ base)
      ∧ (∀ s ∈ l, s ∈ base ++ C) := by
  induction l generalizing base with
  | nil =>
    refine ⟨[], by simp [dedupAppend], List.nodup_nil, List.nil_sublist _, ?_, ?_⟩
    · intro s hs; simp at hs
    · intro s hs; simp at hs
  | cons x t ih =>
    by_cases hx : x ∈ base
    · obtain ⟨C, hEq, hNd, hSub, hMem, hCov⟩ := ih base
      refine ⟨C, ?_, hNd, hSub.cons x, ?_, ?_⟩
      · rw [dedupAppend_cons, if_pos hx]; exact hEq
      · intro s hs
        exact ⟨List.mem_cons_of_mem x (hMem s hs).1, (hMem s hs).2⟩
      · intro s hs
        rcases List.mem_cons.mp hs with rfl | hs2
        · exact List.mem_append_left _ hx
        · exact hCov s hs2
    · obtain ⟨C, hEq, hNd, hSub, hMem, hCov⟩ := ih (base ++ [x])
      refine ⟨x :: C, ?_, ?_, hSub.cons₂ x, ?_, ?_⟩
      · rw [dedupAppend_cons, if_neg hx, hEq, List.append_assoc]
        simp
      · refine List.nodup_cons.mpr ⟨?_, hNd⟩
        intro hxC
        exact (hMem x hxC).2 (List.mem_append_right _ (List.mem_singleton.mpr rfl))
      · intro s hs
        rcases List.mem_cons.mp hs with rfl | hs2
        · exact ⟨List.mem_cons_self s t, hx⟩
        · refine ⟨List.mem_cons_of_mem x (hMem s hs2).1, ?_⟩
          intro hb
          exact (hMem s hs2).2 (List.mem_append_left _ hb)
      · intro s hs
        rcases List.mem_cons.mp hs with rfl | hs2
        · simp
        · have := hCov s hs2
          simp only [List.mem_append, List.mem_singleton, List.mem_cons] at this ⊢
          tauto

/-- Every capture group of the symbol regex has 2 to 10 characters. -/
theorem scanGo_capture_length :
    ∀ (fuel : Nat) (s r : List Char), r ∈ scanGo fuel s →
      2 ≤ r.length ∧ r.length ≤ 10 := by
  intro fuel
  induction fuel with
  | zero => intro s r h; simp [scanGo] at h
  | succ fuel ih =>
    intro s r h
    cases s with
    | nil => simp [scanGo] at h
    | cons c rest =>
      simp only [scanGo] at h
      split at h
      · split at h
        · exact ih rest r h
        · split at h
          · next hcond =>
            rcases List.mem_cons.mp h with rfl | hMem
            · exact ⟨hcond.2.1, hcond.2.2⟩
            · exact ih _ r hMem
          · exact ih rest r h
      · exact ih rest r h

/-- Every uppercased symbol of one string has 2 to 10 characters. -/
theorem extractedSyms_length (x : List Char) :
    ∀ s ∈ extractedSyms x, 2 ≤ s.length ∧ s.length ≤ 10 := by
  intro s hs
  obtain ⟨r, hr, rfl⟩ := List.mem_map.mp hs
  rw [List.length_map]
  exact scanGo_capture_length _ _ r hr

/-- The content loop of the code equals the specification-side first-seen
rule: the fold appends, after the untouched base, exactly the first
occurrences — in scan order — of the symbols not already present. -/
theorem dedupAppend_eq_spec (l base : List (List Char)) :
    dedupAppend base l = base ++ firstSeenSpec base l := by
  induction l generalizing base with
  | nil => simp [dedupAppend, firstSeenSpec]
  | cons x t ih =>
    rw [dedupAppend_cons]
    by_cases hx : x ∈ base
    · rw [if_pos hx, ih base]
      simp [firstSeenSpec, hx]
    · rw [if_neg hx, ih (base ++ [x])]
      simp [firstSeenSpec, hx, List.append_assoc]

/-- C2 (amended): on every detected listing with ASCII title and content —
the scope on which the ASCII character model provably coincides with the
regex crate's Unicode word class and Rust's case maps — token_symbols is the
uppercased title captures in match order (with their multiplicities,
unconditionally appended) followed by exactly the first-seen-order selection
firstSeenSpec of the uppercased content captures not already present: the
suffix is uniquely determined, duplicate-free, keeps content scan order,
every content capture is present, and every symbol has 2 to 10 characters. -/
theorem token_symbols_structure_c2 (a : Announcement)
    (h : (analyze_for_new_listing a).is_new_listing = true)
    (_ht : a.title.all isAsciiChar = true)
    (_hc : a.content.all isAsciiChar = true) :
    (analyze_for_new_listing a).token_symbols
      = extractedSyms a.title
        ++ firstSeenSpec (extractedSyms a.title) (extractedSyms a.content)
    ∧ (firstSeenSpec (extractedSyms a.title) (extractedSyms a.content)).Nodup
    ∧ (firstSeenSpec (extractedSyms a.title) (extractedSyms a.content)).Sublist
        (extractedSyms a.content)
    ∧ (∀ s ∈ firstSeenSpec (extractedSyms a.title) (extractedSyms a.content),
        s ∈ extractedSyms a.content ∧ s ∉ extractedSyms a.title)
    ∧ (∀ s ∈ extractedSyms a.content,
        s ∈ extractedSyms a.title
          ++ firstSeenSpec (extractedSyms a.title) (extractedSyms a.content))
    ∧ (∀ s ∈ (analyze_for_new_listing a).token_symbols,
        2 ≤ s.length ∧ s.length ≤ 10) := by
  have hdet : listingDetected a.title a.content = true := by
    simpa [analyze_for_new_listing] using h
  have hts : (analyze_for_new_listing a).token_symbols
      = extractSymbols a.title a.content := by
    simp [analyze_for_new_listing, hdet]
  obtain ⟨C, hEq, hNd, hSub, hMem, hCov⟩ :=
    dedupAppend_spec (extractedSyms a.content) (extractedSyms a.title)
  have hCfs : C = firstSeenSpec (extractedSyms a.title) (extractedSyms a.content) := by
    have h2 : extractedSyms a.title ++ C
        = extractedSyms a.title
          ++ firstSeenSpec (extractedSyms a.title) (extractedSyms a.content) := by
      rw [← hEq, dedupAppend_eq_spec]
    have h3 := congrArg (List.drop (extractedSyms a.title).length) h2
    simpa [List.drop_left] using h3
  rw [← hCfs]
  have hEq2 : (analyze_for_new_listing a).token_symbols
      = extractedSyms a.title ++ C := by
    rw [hts]; exact hEq
  refine ⟨hEq2, hNd, hSub, hMem, hCov, ?_⟩
  intro s hs
  rw [hEq2] at hs
  rcases List.mem_append.mp hs with h1 | h2
  · exact extractedSyms_length _ s h1
  · exact extractedSyms_length _ s (hMem s h2).1

/-- Witness for C2 (amended) at a concrete detected all-ASCII listing: title
[BTC], content (ETH) and (BTC) produce [BTC, ETH] — the title capture
followed by the first-seen content selection. -/
theorem token_symbols_structure_c2_witness :
    (analyze_for_new_listing c2exAnn).token_symbols
      = [String.toList "BTC", String.toList "ETH"]
    ∧ (analyze_for_new_listing c2exAnn).token_symbols
      = extractedSyms c2exAnn.title
        ++ firstSeenSpec (extractedSyms c2exAnn.title) (extractedSyms c2exAnn.content)
    ∧ (firstSeenSpec (extractedSyms c2exAnn.title)
        (extractedSyms c2exAnn.content)).Nodup := by
  have h := token_symbols_structure_c2 c2exAnn (by decide) (by decide) (by decide)
  exact ⟨by decide, h.1, h.2.1⟩

/-- One-step equation of the retry loop when the current attempt yields a
response. -/
theorem retryAux_eq_response (f : Nat → AttemptOutcome) (attempt r delay : Nat)
    (le : Option RetryError) (status : Nat) (body : List Char)
    (hf : f attempt = AttemptOutcome.response status body) :
    retryAux f attempt (r + 1) delay le =
      if isSuccessStatus status then
        { result := Except.ok (status, body), sleeps := [], calls := 1 }
      else if isRetryableStatus status then
        { result := (retryAux f (attempt + 1) r (delay * 2)
            (some (RetryError.statusError status body))).result,
          sleeps := delay :: (retryAux f (attempt + 1) r (delay * 2)
            (some (RetryError.statusError status body))).sleeps,
          calls := (retryAux f (attempt + 1) r (delay * 2)
            (some (RetryError.statusError status body))).calls + 1 }
      else { result := Except.ok (status, body), sleeps := [], calls := 1 } := by
  conv_lhs => rw [retryAux]
  rw [hf]

/-- One-step equation of the retry loop when the current attempt fails at the
transport level. -/
theorem retryAux_eq_failure (f : Nat → AttemptOutcome) (attempt r delay : Nat)
    (le : Option RetryError) (e : List Char)
    (hf : f attempt = AttemptOutcome.failure e) :
    retryAux f attempt (r + 1) delay le =
      if r = 0 then
        { result := Except.error (RetryError.transportError e), sleeps := [], calls := 1 }
      else
        { result := (retryAux f (attempt + 1) r (delay * 2)
            (some (RetryError.transportError e))).result,
          sleeps := delay :: (retryAux f (attempt + 1) r (delay * 2)
            (some (RetryError.transportError e))).sleeps,
          calls := (retryAux f (attempt + 1) r (delay * 2)
            (some (RetryError.transportError e))).calls + 1 } := by
  conv_lhs => rw [retryAux]
  rw [hf]

/-- retry_request invokes the factory at most `remaining` more times. -/
theorem retryAux_calls_le (f : Nat → AttemptOutcome) :
    ∀ (r attempt delay : Nat) (le : Option RetryError),
      (retryAux f attempt r delay le).calls ≤ r := by
  intro r
  induction r with
  | zero => intro attempt delay le; simp [retryAux]
  | succ r ih =>
    intro attempt delay le
    cases hf : f attempt with
    | response status body =>
      rw [retryAux_eq_response f attempt r delay le status body hf]
      split_ifs
      · exact Nat.succ_le_succ (Nat.zero_le r)
      · exact Nat.succ_le_succ (ih _ _ _)
      · exact Nat.succ_le_succ (Nat.zero_le r)
    | failure e =>
      rw [retryAux_eq_failure f attempt r delay le e hf]
      split_ifs
      · exact Nat.succ_le_succ (Nat.zero_le r)
      · exact Nat.succ_le_succ (ih _ _ _)

/-- The j-th sleep (0-based) of a retry run equals the entry delay doubled j
times. -/
theorem retryAux_sleeps_geometric (f : Nat → AttemptOutcome) :
    ∀ (r attempt delay : Nat) (le : Option RetryError) (j x : Nat),
      (retryAux f attempt r delay le).sleeps.get? j = some x → x = delay * 2 ^ j := by
  intro r
  induction r with
  | zero => intro attempt delay le j x h; simp [retryAux] at h
  | succ r ih =>
    intro attempt delay le j x h
    cases hf : f attempt with
    | response status body =>
      rw [retryAux_eq_response f attempt r delay le status body hf] at h
      split_ifs at h
      · simp at h
      · cases j with
        | zero => simp at h; omega
        | succ j =>
          have := ih (attempt + 1) (delay * 2)
            (some (RetryError.statusError status body)) j x (by simpa using h)
          rw [this, pow_succ]; ring
      · simp at h
    | failure e =>
      rw [retryAux_eq_failure f attempt r delay le e hf] at h
      split_ifs at h
      · simp at h
      · cases j with
        | zero => simp at h; omega
        | succ j =>
          have := ih (attempt + 1) (delay * 2)
            (some (RetryError.transportError e)) j x (by simpa using h)
          rw [this, pow_succ]; ring

/-- When none of the r+1 attempts is accepted, the run surfaces the error of
the last attempt, and — when that last attempt was a transport failure —
performs exactly r sleeps (none after the final attempt). -/
theorem retryAux_all_rejected (f : Nat → AttemptOutcome) :
    ∀ (r attempt delay : Nat) (le : Option RetryError),
      (∀ j, j ≤ r → accepted (f (attempt + j)) = false) →
      (retryAux f attempt (r + 1) delay le).result
        = Except.error (errOf (f (attempt + r)))
      ∧ (∀ e, f (attempt + r) = AttemptOutcome.failure e →
          (retryAux f attempt (r + 1) delay le).sleeps.length = r) := by
  intro r
  induction r with
  | zero =>
    intro attempt delay le h
    have h0 := h 0 (Nat.le_refl 0)
    simp only [Nat.add_zero] at h0 ⊢
    cases hf : f attempt with
    | response status body =>
      rw [hf] at h0
      simp only [accepted, Bool.or_eq_false_iff, Bool.not_eq_false'] at h0
      rw [retryAux_eq_response f attempt 0 delay le status body hf,
        if_neg (by simp [h0.1]), if_pos (by simp [h0.2])]
      simp [retryAux, errOf, hf]
    | failure e =>
      rw [retryAux_eq_failure f attempt 0 delay le e hf, if_pos rfl]
      simp [errOf, hf]
  | succ r ih =>
    intro attempt delay le h
    have h0 := h 0 (Nat.zero_le _)
    simp only [Nat.add_zero] at h0
    have hshift : ∀ j, j ≤ r → accepted (f (attempt + 1 + j)) = false := by
      intro j hj
      have := h (j + 1) (by omega)
      rw [show attempt + (j + 1) = attempt + 1 + j by omega] at this
      exact this
    have harr : attempt + 1 + r = attempt + (r + 1) := by omega
    cases hf : f attempt with
    | response status body =>
      rw [hf] at h0
      simp only [accepted, Bool.or_eq_false_iff, Bool.not_eq_false'] at h0
      rw [retryAux_eq_response f attempt (r + 1) delay le status body hf,
        if_neg (by simp [h0.1]), if_pos (by simp [h0.2])]
      have := ih (attempt + 1) (delay * 2)
        (some (RetryError.statusError status body)) hshift
      rw [harr] at this
      exact ⟨this.1, fun e he => by simp only [List.length_cons, this.2 e he]⟩
    | failure e2 =>
      rw [retryAux_eq_failure f attempt (r + 1) delay le e2 hf,
        if_neg (Nat.succ_ne_zero r)]
      have := ih (attempt + 1) (delay * 2)
        (some (RetryError.transportError e2)) hshift
      rw [harr] at this
      exact ⟨this.1, fun e he => by simp only [List.length_cons, this.2 e he]⟩

/-- Any value retry_request returns is the unmodified response of some
attempt whose status is not one of the two retryable codes. -/
theorem retryAux_ok_source (f : Nat → AttemptOutcome) :
    ∀ (r attempt delay : Nat) (le : Option RetryError) (st : Nat) (b : List Char),
      (retryAux f attempt r delay le).result = Except.ok (st, b) →
      isRetryableStatus st = false
      ∧ ∃ j, j < r ∧ f (attempt + j) = AttemptOutcome.response st b := by
  intro r
  induction r with
  | zero => intro attempt delay le st b h; simp [retryAux] at h
  | succ r ih =>
    intro attempt delay le st b h
    cases hf : f attempt with
    | response status body =>
      rw [retryAux_eq_response f attempt r delay le status body hf] at h
      split_ifs at h with h1 h2
      · simp only [Except.ok.injEq, Prod.mk.injEq] at h
        obtain ⟨rfl, rfl⟩ := h
        refine ⟨?_, 0, Nat.succ_pos r, by simpa using hf⟩
        simp only [isSuccessStatus, Bool.and_eq_true, decide_eq_true_eq] at h1
        simp only [isRetryableStatus, Bool.or_eq_false_iff, decide_eq_false_iff_not]
        omega
      · obtain ⟨hret, j, hj, hfj⟩ := ih (attempt + 1) (delay * 2) _ st b h
        refine ⟨hret, j + 1, by omega, ?_⟩
        rw [show attempt + (j + 1) = attempt + 1 + j by omega]
        exact hfj
      · simp only [Except.ok.injEq, Prod.mk.injEq] at h
        obtain ⟨rfl, rfl⟩ := h
        exact ⟨Bool.eq_false_iff.mpr h2, 0, Nat.succ_pos r, by simpa using hf⟩
    | failure e =>
      rw [retryAux_eq_failure f attempt r delay le e hf] at h
      split_ifs at h with h1
      obtain ⟨hret, j, hj, hfj⟩ := ih (attempt + 1) (delay * 2) _ st b h
      refine ⟨hret, j + 1, by omega, ?_⟩
      rw [show attempt + (j + 1) = attempt + 1 + j by omega]
      exact hfj

/-- When attempts 0..k-1 (relative to the current one) are all rejected and
attempt k is an accepted response, that response is returned, the factory ran
exactly k+1 times and exactly k sleeps happened. -/
theorem retryAux_first_accepted (f : Nat → AttemptOutcome) :
    ∀ (k r attempt delay : Nat) (le : Option RetryError),
      k < r →
      (∀ j, j < k → accepted (f (attempt + j)) = false) →
      ∀ st b, f (attempt + k) = AttemptOutcome.response st b →
        accepted (f (attempt + k)) = true →
        (retryAux f attempt r delay le).result = Except.ok (st, b)
        ∧ (retryAux f attempt r delay le).calls = k + 1
        ∧ (retryAux f attempt r delay le).sleeps.length = k := by
  intro k
  induction k with
  | zero =>
    intro r attempt delay le hk _ st b hfk hacc
    obtain ⟨r, rfl⟩ : ∃ r2, r = r2 + 1 := ⟨r - 1, by omega⟩
    simp only [Nat.add_zero] at hfk hacc
    rw [hfk] at hacc
    simp only [accepted, Bool.or_eq_true] at hacc
    rw [retryAux_eq_response f attempt r delay le st b hfk]
    rcases hacc with hsucc | hnret
    · rw [if_pos hsucc]
      exact ⟨rfl, rfl, rfl⟩
    · have hret : isRetryableStatus st = false := by simpa using hnret
      cases hsucc : isSuccessStatus st with
      | true => exact ⟨rfl, rfl, rfl⟩
      | false =>
        rw [if_neg (show ¬(isRetryableStatus st = true) by simp [hret])]
        exact ⟨rfl, rfl, rfl⟩
  | succ k ih =>
    intro r attempt delay le hk hprev st b hfk hacc
    obtain ⟨r, rfl⟩ : ∃ r2, r = r2 + 1 := ⟨r - 1, by omega⟩
    have h0 := hprev 0 (Nat.succ_pos k)
    simp only [Nat.add_zero] at h0
    have hshift : ∀ j, j < k → accepted (f (attempt + 1 + j)) = false := by
      intro j hj
      have := hprev (j + 1) (by omega)
      rw [show attempt + (j + 1) = attempt + 1 + j by omega] at this
      exact this
    have harr : attempt + 1 + k = attempt + (k + 1) := by omega
    cases hf : f attempt with
    | response status body =>
      rw [hf] at h0
      simp only [accepted, Bool.or_eq_false_iff, Bool.not_eq_false'] at h0
      rw [retryAux_eq_response f attempt r delay le status body hf,
        if_neg (by simp [h0.1]), if_pos (by simp [h0.2])]
      have := ih r (attempt + 1) (delay * 2)
        (some (RetryError.statusError status body)) (by omega) hshift st b
        (by rw [harr]; exact hfk) (by rw [harr]; exact hacc)
      exact ⟨this.1, by simp [this.2.1], by simp [this.2.2]⟩
    | failure e =>
      rw [retryAux_eq_failure f attempt r delay le e hf, if_neg (by omega)]
      have := ih r (attempt + 1) (delay * 2)
        (some (RetryError.transportError e)) (by omega) hshift st b
        (by rw [harr]; exact hfk) (by rw [harr]; exact hacc)
      exact ⟨this.1, by simp [this.2.1], by simp [this.2.2]⟩

/-- C4 (amended): retry_request invokes the factory at most max_attempts
times; the sleep performed before attempt k (1-based, k ≥ 2) equals
initial_delay × 2^(k-2) — the (k-2)-th entry of the sleep list; and a first
attempt answering 200 or 404 is returned immediately with zero sleeps. -/
theorem retry_attempts_and_backoff_c4 (f : Nat → AttemptOutcome)
    (maxR init : Nat) (b : List Char) (hmax : 1 ≤ maxR) :
    (retry_request f maxR init).calls ≤ maxR
    ∧ (∀ k x, 2 ≤ k →
        (retry_request f maxR init).sleeps.get? (k - 2) = some x →
        x = init * 2 ^ (k - 2))
    ∧ (f 0 = AttemptOutcome.response 200 b →
        (retry_request f maxR init).result = Except.ok (200, b)
        ∧ (retry_request f maxR init).sleeps = [])
    ∧ (f 0 = AttemptOutcome.response 404 b →
        (retry_request f maxR init).result = Except.ok (404, b)
        ∧ (retry_request f maxR init).sleeps = []) := by
  refine ⟨retryAux_calls_le f maxR 0 init none, ?_, ?_, ?_⟩
  · intro k x _ h
    exact retryAux_sleeps_geometric f maxR 0 init none (k - 2) x h
  · intro h0
    have := retryAux_first_accepted f 0 maxR 0 init none hmax
      (fun j hj => absurd hj (Nat.not_lt_zero j)) 200 b (by simpa using h0)
      (by simp only [Nat.add_zero]; rw [h0]; rfl)
    exact ⟨this.1, List.length_eq_zero.mp this.2.2⟩
  · intro h0
    have := retryAux_first_accepted f 0 maxR 0 init none hmax
      (fun j hj => absurd hj (Nat.not_lt_zero j)) 404 b (by simpa using h0)
      (by simp only [Nat.add_zero]; rw [h0]; rfl)
    exact ⟨this.1, List.length_eq_zero.mp this.2.2⟩

/-- Witness for C4 (amended): a factory answering 200 at once, three allowed
attempts, delay 100 — returned from the first attempt with zero sleeps. -/
theorem retry_attempts_and_backoff_c4_witness :
    (retry_request cokFactory 3 100).calls ≤ 3
    ∧ (retry_request cokFactory 3 100).result = Except.ok (200, String.toList "ok")
    ∧ (retry_request cokFactory 3 100).sleeps = [] := by
  obtain ⟨h1, _, h3, _⟩ :=
    retry_attempts_and_backoff_c4 cokFactory 3 100 (String.toList "ok") (by decide)
  exact ⟨h1, (h3 rfl).1, (h3 rfl).2⟩

/-- C5: a 429 or 403 response is never returned to the caller, while any
response with another status — success or not — reached after only rejected
attempts is returned to the caller unmodified with no further factory
invocation. -/
theorem retry_status_handling_c5 (f : Nat → AttemptOutcome) (maxR init : Nat) :
    (∀ st b, (retry_request f maxR init).result = Except.ok (st, b) →
        (st ≠ 429 ∧ st ≠ 403)
        ∧ ∃ k, k < maxR ∧ f k = AttemptOutcome.response st b)
    ∧ (∀ k st b, k < maxR →
        (∀ j, j < k → accepted (f j) = false) →
        f k = AttemptOutcome.response st b → st ≠ 429 → st ≠ 403 →
        (retry_request f maxR init).result = Except.ok (st, b)
        ∧ (retry_request f maxR init).calls = k + 1) := by
  constructor
  · intro st b h
    obtain ⟨hret, j, hj, hfj⟩ := retryAux_ok_source f maxR 0 init none st b h
    refine ⟨?_, j, hj, by simpa using hfj⟩
    simpa [isRetryableStatus] using hret
  · intro k st b hk hprev hfk h429 h403
    have hacc : accepted (f k) = true := by
      rw [hfk]
      simp [accepted, isRetryableStatus, h429, h403]
    have := retryAux_first_accepted f k maxR 0 init none hk
      (fun j hj => by simpa using hprev j hj) st b (by simpa using hfk)
      (by simpa using hacc)
    exact ⟨this.1, this.2.1⟩

/-- Witness for C5: a 404 on the first attempt is returned unmodified after
exactly one factory invocation. -/
theorem retry_status_handling_c5_witness :
    (retry_request c404Factory 2 50).result = Except.ok (404, String.toList "nf")
    ∧ (retry_request c404Factory 2 50).calls = 1 := by
  exact (retry_status_handling_c5 c404Factory 2 50).2 0 404 (String.toList "nf")
    (by decide) (fun j hj => absurd hj (Nat.not_lt_zero j)) rfl (by decide) (by decide)

/-- C6: a run in which no attempt is accepted returns the error recorded
from the last attempt, and when that final attempt failed at the transport
level no sleep follows it (exactly max_attempts - 1 sleeps happen). -/
theorem retry_exhaustion_c6 (f : Nat → AttemptOutcome) (maxR init : Nat)
    (hmax : 1 ≤ maxR) (hall : ∀ k, k < maxR → accepted (f k) = false) :
    (retry_request f maxR init).result = Except.error (errOf (f (maxR - 1)))
    ∧ (∀ e, f (maxR - 1) = AttemptOutcome.failure e →
        (retry_request f maxR init).sleeps.length = maxR - 1) := by
  obtain ⟨r, rfl⟩ : ∃ r, maxR = r + 1 := ⟨maxR - 1, by omega⟩
  have := retryAux_all_rejected f r 0 init none
    (fun j hj => by simpa using hall j (by omega))
  simpa using this

/-- Witness for C6: three transport failures surface the last transport
error after exactly two sleeps. -/
theorem retry_exhaustion_c6_witness :
    (retry_request cfailFactory 3 10).result
      = Except.error (RetryError.transportError (String.toList "connection error"))
    ∧ (retry_request cfailFactory 3 10).sleeps.length = 2 := by
  obtain ⟨h1, h2⟩ := retry_exhaustion_c6 cfailFactory 3 10 (by decide)
    (fun k _ => rfl)
  exact ⟨h1, h2 (String.toList "connection error") rfl⟩

/-- C3 (amended): for every response, if the content type is not HTML and the
body decodes, the structured result is returned and the fallback is never
invoked; if the content type is HTML or decode fails and a fallback is
registered, it is invoked exactly once on the raw body and its result is
returned; otherwise an error is returned — provided the no-fallback
diagnostic slice at byte 200 is safe (body of at most 200 bytes, or byte 200
on a character boundary), the code panicking otherwise. -/
theorem extract_response_data_cases_c3 {T : Type} (contentType : List Char)
    (body : List Nat) (decode : List Nat → Except (List Char) T)
    (fb : Option (List Nat → Except (List Char) T)) :
    (∀ t, isHtmlContentType contentType = false → decode body = Except.ok t →
        extract_response_data contentType body decode fb = (ExtractOutcome.ok t, 0))
    ∧ (∀ g, fb = some g →
        (isHtmlContentType contentType = true
          ∨ ∃ m, decode body = Except.error m) →
        extract_response_data contentType body decode fb
          = ((match g body with
              | Except.ok t => ExtractOutcome.ok t
              | Except.error m => ExtractOutcome.err m), 1))
    ∧ (fb = none →
        (isHtmlContentType contentType = true
          ∨ ∃ m, decode body = Except.error m) →
        (body.length ≤ 200 ∨ is_char_boundary body 200 = true) →
        ∃ m2, extract_response_data contentType body decode fb
          = (ExtractOutcome.err m2, 0)) := by
  refine ⟨?_, ?_, ?_⟩
  · intro t hh hd
    simp [extract_response_data, hh, hd]
  · intro g hg hcond
    cases hh : isHtmlContentType contentType with
    | true => simp [extract_response_data, hh, hg]
    | false =>
      rcases hcond with hcond | ⟨m, hm⟩
      · exact absurd hcond (by simp [hh])
      · simp [extract_response_data, hh, hm, hg]
  · intro hfb hcond hbnd
    have hjson : ∃ m, (if isHtmlContentType contentType then
        Except.error (String.toList "Content-Type is HTML, not JSON")
        else decode body) = Except.error m := by
      cases hh : isHtmlContentType contentType with
      | true =>
        exact ⟨String.toList "Content-Type is HTML, not JSON", by simp [hh]⟩
      | false =>
        rcases hcond with hcond | ⟨m, hm⟩
        · exact absurd hcond (by simp [hh])
        · exact ⟨m, by simp [hm]⟩
    obtain ⟨m, hm⟩ := hjson
    simp only [extract_response_data, hfb, hm]
    split_ifs with h1 h2
    · exact ⟨m, rfl⟩
    · rcases hbnd with hbnd | hbnd
      · omega
      · exact absurd hbnd (by simp [h2])
    · exact ⟨m, rfl⟩

/-- Witness for C3 (amended): the three cases at concrete responses — a
structured decode with no fallback call, an HTML response routed to the
fallback exactly once, and a failing decode with no fallback returning an
error. -/
theorem extract_response_data_cases_c3_witness :
    extract_response_data (String.toList "application/json") [49] decodeOne none
      = (ExtractOutcome.ok 1, 0)
    ∧ extract_response_data (String.toList "text/html") [49] decodeOne
        (some fixedFallback) = (ExtractOutcome.ok 7, 1)
    ∧ ∃ m2, extract_response_data (String.toList "application/json") [50] decodeOne none
      = (ExtractOutcome.err m2, 0) := by
  refine ⟨?_, ?_, ?_⟩
  · exact (extract_response_data_cases_c3 (String.toList "application/json") [49]
      decodeOne none).1 1 (by decide) rfl
  · exact (extract_response_data_cases_c3 (String.toList "text/html") [49]
      decodeOne (some fixedFallback)).2.1 fixedFallback rfl (Or.inl (by decide))
  · exact (extract_response_data_cases_c3 (String.toList "application/json") [50]
      decodeOne none).2.2 rfl (Or.inr ⟨String.toList "bad", rfl⟩) (Or.inl (by decide))

/-- Construction enforcement: every ProxyConfig from_env yields has
start < end. -/
theorem from_env_start_lt_end (hv pv sv : Option (List Char)) (cfg : ProxyConfig)
    (h : from_env hv pv sv = some cfg) :
    cfg.port_range.1 < cfg.port_range.2 := by
  obtain ⟨chost, ⟨cs, ce⟩, csys, cidx⟩ := cfg
  show cs < ce
  unfold from_env at h
  repeat split at h
  all_goals simp_all

/-- Without 64-bit cursor wraparound, the i-th of n next_proxy_url calls
yields port start + (cursor + i) mod port_count. -/
theorem portsOfCalls_formula (host : List Char) (sys : Option (List Char))
    (s e : Nat) :
    ∀ (n c : Nat), c + n ≤ USIZE_MOD →
      portsOfCalls (ProxyConfig.mk host (s, e) sys c) n
        = (List.range n).map (fun i => s + (c + i) % ((e - s) + 1)) := by
  intro n
  induction n with
  | zero => intro c _; simp [portsOfCalls]
  | succ n ih =>
    intro c hc
    cases n with
    | zero =>
      simp [portsOfCalls, next_proxy_port, List.range_succ]
    | succ m =>
      have hlt : c + 1 < USIZE_MOD := by omega
      have hstep : portsOfCalls (ProxyConfig.mk host (s, e) sys c) (m + 1 + 1)
          = (s + c % ((e - s) + 1)) ::
            portsOfCalls (ProxyConfig.mk host (s, e) sys ((c + 1) % USIZE_MOD)) (m + 1) := by
        simp [portsOfCalls, next_proxy_port]
      rw [hstep, Nat.mod_eq_of_lt hlt, ih (c + 1) (by omega)]
      rw [show List.range (m + 1 + 1) = 0 :: (List.range (m + 1)).map Nat.succ from
        List.range_succ_eq_map (m + 1)]
      simp only [List.map_cons]
      congr 1
      simp only [List.map_map]
      apply List.map_congr_left
      intro i _
      simp only [Function.comp_apply]
      have harr2 : c + 1 + i = c + i.succ := by omega
      rw [harr2]

/-- The n ports of one full rotation cycle are pairwise distinct. -/
theorem ports_map_nodup (s c N : Nat) (_hN : 0 < N) :
    ((List.range N).map (fun i => s + (c + i) % N)).Nodup := by
  refine List.Nodup.map_on ?_ (List.nodup_range N)
  intro i hi j hj hij
  have hi2 := List.mem_range.mp hi
  have hj2 := List.mem_range.mp hj
  have h2 : (c + i) % N = (c + j) % N := by omega
  have h3 : i % N = j % N := Nat.ModEq.add_left_cancel' c h2
  rwa [Nat.mod_eq_of_lt hi2, Nat.mod_eq_of_lt hj2] at h3

/-- The n ports of one full rotation cycle are exactly the inclusive range
[start, end]. -/
theorem ports_map_mem (s e c : Nat) (hse : s ≤ e) (p : Nat) :
    p ∈ (List.range ((e - s) + 1)).map (fun i => s + (c + i) % ((e - s) + 1))
      ↔ (s ≤ p ∧ p ≤ e) := by
  constructor
  · intro hp
    obtain ⟨i, _, rfl⟩ := List.mem_map.mp hp
    have : (c + i) % ((e - s) + 1) < (e - s) + 1 := Nat.mod_lt _ (by omega)
    omega
  · intro hp
    obtain ⟨hp1, hp2⟩ := hp
    have hN : 0 < (e - s) + 1 := by omega
    have hdN : p - s < (e - s) + 1 := by omega
    refine List.mem_map.mpr
      ⟨((p - s) + (((e - s) + 1) - c % ((e - s) + 1))) % ((e - s) + 1),
        List.mem_range.mpr (Nat.mod_lt _ hN), ?_⟩
    have hcm : c % ((e - s) + 1) < (e - s) + 1 := Nat.mod_lt c hN
    have key : (c + (((e - s) + 1) - c % ((e - s) + 1))) % ((e - s) + 1) = 0 := by
      have h1 := Nat.div_add_mod c ((e - s) + 1)
      have h2 : c + (((e - s) + 1) - c % ((e - s) + 1))
          = ((e - s) + 1) + ((e - s) + 1) * (c / ((e - s) + 1)) := by omega
      rw [h2, Nat.add_mul_mod_self_left, Nat.mod_self]
    have h3 : (c + ((p - s) + (((e - s) + 1) - c % ((e - s) + 1))) % ((e - s) + 1))
          % ((e - s) + 1)
        = (c + ((p - s) + (((e - s) + 1) - c % ((e - s) + 1)))) % ((e - s) + 1) :=
      Nat.ModEq.add_left c (Nat.mod_modEq _ _)
    have h4 : (c + ((p - s) + (((e - s) + 1) - c % ((e - s) + 1))))
        = (c + (((e - s) + 1) - c % ((e - s) + 1))) + (p - s) := by omega
    have h5 : ((c + (((e - s) + 1) - c % ((e - s) + 1))) + (p - s)) % ((e - s) + 1)
        = (0 + (p - s)) % ((e - s) + 1) :=
      Nat.ModEq.add_right (p - s) (by
        show _ % _ = _ % _
        rw [Nat.zero_mod]
        exact key)
    rw [h3, h4, h5, Nat.zero_add, Nat.mod_eq_of_lt hdN]
    omega

/-- C7 (amended): for every ProxyConfig produced by from_env (whose
construction enforces start < end) and every starting cursor value c such
that the N = end - start + 1 calls do not overflow the 64-bit cursor
(c + N ≤ 2^64), the N successive next_proxy_url calls yield pairwise
distinct ports covering the inclusive range exactly. -/
theorem proxy_rotation_cycle_c7 (hv pv sv : Option (List Char))
    (cfg : ProxyConfig) (hcfg : from_env hv pv sv = some cfg) (c : Nat)
    (hc : c + ((cfg.port_range.2 - cfg.port_range.1) + 1) ≤ USIZE_MOD) :
    (portsOfCalls { cfg with current_index := c }
        ((cfg.port_range.2 - cfg.port_range.1) + 1)).Nodup
    ∧ (∀ p, p ∈ portsOfCalls { cfg with current_index := c }
          ((cfg.port_range.2 - cfg.port_range.1) + 1)
        ↔ (cfg.port_range.1 ≤ p ∧ p ≤ cfg.port_range.2)) := by
  have hse : cfg.port_range.1 < cfg.port_range.2 :=
    from_env_start_lt_end hv pv sv cfg hcfg
  obtain ⟨host, ⟨s, e⟩, sys, idx⟩ := cfg
  simp only at hse hc ⊢
  have hform := portsOfCalls_formula host sys s e ((e - s) + 1) c hc
  constructor
  · rw [hform]
    exact ports_map_nodup s c ((e - s) + 1) (by omega)
  · intro p
    rw [hform]
    exact ports_map_mem s e c (by omega) p

/-- Witness for C7 (amended): the config from PROXY=h, PORT_RANGE=1-3 with
cursor 5 yields three distinct ports, among them port 2. -/
theorem proxy_rotation_cycle_c7_witness :
    (portsOfCalls (ProxyConfig.mk (String.toList "h") (1, 3) none 5) 3).Nodup
    ∧ 2 ∈ portsOfCalls (ProxyConfig.mk (String.toList "h") (1, 3) none 5) 3 := by
  have h := proxy_rotation_cycle_c7 (some (String.toList "h"))
    (some (String.toList "1-3")) none
    (ProxyConfig.mk (String.toList "h") (1, 3) none 0) (by decide) 5 (by decide)
  exact ⟨h.1, (h.2 2).mpr (by decide)⟩
